import Mathlib

/-!
Verification of the research-document organizer (ResearchHub component).

The development shallowly embeds the data-synchronization layer of the
source file: the Document / Note / AnalysisResult records, the load
reconstruction, the analyze fallback path, and the mutation operations
regenerateAnalysis, addNote, linkDocuments, addTag, together with the
derived search/filter view.  External collaborators (the key-value store
and the analysis HTTP call) are modelled as explicit parameters: a getter
outcome per key for loads, and an explicit fetch outcome for the analysis
call.  Persisted values are modelled by the StoreVal inductive, standing
for the JSON serialization of the corresponding record.
-/

/-- Result record produced by the analysis call: summary, keywords,
entities and topic, exactly the four fields the source spreads into a
document. -/
structure AnalysisResult where
  summary : String
  keywords : List String
  entities : List String
  topic : String
deriving DecidableEq, Repr

/-- A document as built by handleFileUpload: identifier, title, raw
content, upload date, file type, tag list, and the four analysis-derived
fields spread at top level. -/
structure Document where
  id : String
  title : String
  content : String
  uploadDate : String
  fileType : String
  tags : List String
  summary : String
  keywords : List String
  entities : List String
  topic : String
deriving DecidableEq, Repr

/-- A note as built by addNote: creation-time id, text, timestamp. -/
structure Note where
  id : Nat
  text : String
  timestamp : String
deriving DecidableEq, Repr

/-- A value persisted in the key-value store, standing for the JSON
serialization the source writes: a document record, a note list, a link
list, or the undefined value produced when addTag stringifies a failed
find. -/
inductive StoreVal where
  | docV (d : Document)
  | notesV (ns : List Note)
  | linksV (ls : List String)
  | undef
deriving DecidableEq, Repr

/-- The reactive state of the component: the document list, the selected
document, the notes and links maps (missing entries read as empty lists,
matching the source default), and the externally persisted store. -/
structure RepoState where
  documents : List Document
  selectedDoc : Option Document
  notes : String → List Note
  links : String → List String
  store : String → Option StoreVal

/-- The state the component starts from before any load or mutation. -/
def emptyState : RepoState :=
  { documents := [], selectedDoc := none, notes := fun _ => [],
    links := fun _ => [], store := fun _ => none }

/-- Character-list test that the first list starts with the second,
embedding the prefix test underlying the JS substring search. -/
def startsWithList : List Char → List Char → Bool
  | _, [] => true
  | [], _ :: _ => false
  | a :: as, c :: cs => a == c && startsWithList as cs

/-- Character-list embedding of the JS String.includes test: the second
list occurs contiguously in the first. -/
def containsList : List Char → List Char → Bool
  | [], p => startsWithList [] p
  | a :: as, p => startsWithList (a :: as) p || containsList as p

/-- Embedding of the JS includes call used by the search predicate. -/
def jsIncludes (s sub : String) : Bool :=
  containsList s.data sub.data

/-- Embedding of toLowerCase as a character-wise lowering. -/
def jsToLower (s : String) : String :=
  ⟨s.data.map Char.toLower⟩

/-- Search predicate of filteredDocs: the lowered term occurs in the
lowered title, the lowered summary, or some lowered keyword. -/
def matchesSearch (doc : Document) (searchTerm : String) : Bool :=
  jsIncludes (jsToLower doc.title) (jsToLower searchTerm) ||
  jsIncludes (jsToLower doc.summary) (jsToLower searchTerm) ||
  doc.keywords.any (fun k => jsIncludes (jsToLower k) (jsToLower searchTerm))

/-- Tag predicate of filteredDocs: the filter is the empty string, or the
filter value occurs in the tag list. -/
def matchesTag (doc : Document) (filterTag : String) : Bool :=
  filterTag == "" || doc.tags.contains filterTag

/-- The derived filtered document list: the conjunction of the search
predicate and the tag predicate over the current document list. -/
def filteredDocs (documents : List Document) (searchTerm filterTag : String) :
    List Document :=
  documents.filter fun doc => matchesSearch doc searchTerm && matchesTag doc filterTag

/-- The backquote character, written by code to stay clear of source
markup. -/
def backtick : Char := Char.ofNat 96

/-- Embedding of the global fence-stripping replace applied to the
analysis response text: at each position, a three-backtick run followed
by the letters j s o n is removed, otherwise a three-backtick run is
removed, otherwise the character is kept. -/
def stripFencesChars : List Char → List Char
  | c1 :: c2 :: c3 :: 'j' :: 's' :: 'o' :: 'n' :: tail2 =>
    if c1 = backtick ∧ c2 = backtick ∧ c3 = backtick then stripFencesChars tail2
    else c1 :: stripFencesChars (c2 :: c3 :: 'j' :: 's' :: 'o' :: 'n' :: tail2)
  | c1 :: c2 :: c3 :: tail =>
    if c1 = backtick ∧ c2 = backtick ∧ c3 = backtick then stripFencesChars tail
    else c1 :: stripFencesChars (c2 :: c3 :: tail)
  | c :: rest => c :: stripFencesChars rest
  | [] => []
termination_by l => l.length
decreasing_by
  all_goals simp
  all_goals omega

/-- String-level fence stripping. -/
def stripFences (s : String) : String :=
  ⟨stripFencesChars s.data⟩

/-- Embedding of the JS trim call: whitespace dropped from both ends. -/
def jsTrim (s : String) : String :=
  ⟨((s.data.dropWhile Char.isWhitespace).reverse.dropWhile Char.isWhitespace).reverse⟩

/-- One element of the content array of the analysis response. -/
structure ContentItem where
  type : String
  text : String
deriving DecidableEq, Repr

/-- The JSON body of the analysis response; the content field is absent
on error-shaped bodies, in which case the source mapping step throws. -/
structure MsgResponse where
  content : Option (List ContentItem)
deriving DecidableEq, Repr

/-- Outcome of the fetch plus response.json() steps of analyzeDocument:
the fetch itself throws, the body fails to parse as JSON, or a parsed
body is available. -/
inductive FetchResult where
  | transportError
  | jsonError
  | ok (data : MsgResponse)
deriving DecidableEq, Repr

/-- The fixed substitute result returned by the catch branch of
analyzeDocument. -/
def fallbackResult : AnalysisResult :=
  { summary := "Analysis unavailable", keywords := [], entities := [], topic := "General" }

/-- Embedding of the mapping and joining of the content array: text
items contribute their text, every other item contributes the empty
string. -/
def extractTextContent (items : List ContentItem) : String :=
  String.join (items.map fun item => if item.type = "text" then item.text else "")

/-- Embedding of analyzeDocument over an explicit fetch outcome and an
explicit JSON-parse collaborator: every failure point of the try block
falls through to the fixed fallback result, and the function is total,
so no error propagates to the caller. -/
def analyzeDocument (fr : FetchResult) (parseJson : String → Option AnalysisResult) :
    AnalysisResult :=
  match fr with
  | .transportError => fallbackResult
  | .jsonError => fallbackResult
  | .ok data =>
    match data.content with
    | none => fallbackResult
    | some items =>
      match parseJson (jsTrim (stripFences (extractTextContent items))) with
      | none => fallbackResult
      | some r => r

/-- Outcome of fetching and parsing one store key during load: the get
call throws, the result carries no value, the value fails to parse, or a
parsed entity is available. -/
inductive GetOutcome (α : Type) where
  | throwsErr
  | noValue
  | badParse
  | parsed (a : α)
deriving DecidableEq, Repr

/-- Embedding of the JS single-argument replace with the empty string:
the first occurrence of the pattern is removed. -/
def removeFirstChars (p : List Char) : List Char → List Char
  | [] => []
  | c :: cs =>
    if startsWithList (c :: cs) p then (c :: cs).drop p.length
    else c :: removeFirstChars p cs

/-- String-level removal of the first occurrence of a pattern, as used
to derive a record id from its namespaced key. -/
def removeFirst (s pat : String) : String :=
  ⟨removeFirstChars pat.data s.data⟩

/-- The document loop of loadData: each key whose get succeeds with a
present, parseable value contributes its document; every other key is
skipped. -/
def loadDocs (keys : List String) (get : String → GetOutcome Document) :
    List Document :=
  keys.filterMap fun k =>
    match get k with
    | .parsed d => some d
    | _ => none

/-- The notes and links loops of loadData: keys are processed in order,
each successful key assigns its parsed value at the id obtained by
removing the namespace from the key, later keys overriding earlier
ones; failed keys leave the accumulator untouched. -/
def loadEntryMap {α : Type} (pfx : String) (get : String → GetOutcome α) :
    List String → (String → Option α) → String → Option α
  | [], m => m
  | k :: ks, m =>
    match get k with
    | .parsed v =>
      loadEntryMap pfx get ks (fun x => if x = removeFirst k pfx then some v else m x)
    | _ => loadEntryMap pfx get ks m

/-- The notes map reconstructed by loadData. -/
def loadNotes (keys : List String) (get : String → GetOutcome (List Note)) :
    String → Option (List Note) :=
  loadEntryMap "notes:" get keys (fun _ => none)

/-- The links map reconstructed by loadData. -/
def loadLinks (keys : List String) (get : String → GetOutcome (List String)) :
    String → Option (List String) :=
  loadEntryMap "links:" get keys (fun _ => none)

/-- An uploaded file as seen by handleFileUpload: name, MIME type, and
the text produced by the reader. -/
structure UploadFile where
  name : String
  type : String
  content : String
deriving DecidableEq, Repr

/-- The fixed placeholder text substituted for PDF files. -/
def pdfStubText (name : String) : String :=
  "[PDF Content from " ++ name ++ "]\n\nThis is a simulated PDF text extraction. In a real implementation, this would contain the extracted text from the PDF document."

/-- The text handleFileUpload feeds to the analysis call: the reader
content, or the placeholder for PDF files. -/
def extractText (f : UploadFile) : String :=
  if f.type = "application/pdf" then pdfStubText f.name else f.content

/-- Embedding of the title derivation: the final-extension regex match
(a dot followed by one or more characters none of which is a dot or a
slash, anchored at the end) is removed when it exists. -/
def stripExt (name : String) : String :=
  let r := name.data.reverse
  let e := r.takeWhile fun c => !(c == '.') && !(c == '/')
  match r.drop e.length with
  | '.' :: tail => if e.isEmpty then name else ⟨tail.reverse⟩
  | _ => name

/-- The document constructed by handleFileUpload for one file, given the
generated id, the upload timestamp, and the analysis result: the title
is the name with its final extension stripped, the initial tag list is
the one-element list holding the analysis topic, and the four analysis
fields are spread at top level. -/
def ingestDoc (f : UploadFile) (newId : String) (now : String)
    (a : AnalysisResult) : Document :=
  { id := newId, title := stripExt f.name, content := extractText f,
    uploadDate := now, fileType := f.type, tags := [a.topic],
    summary := a.summary, keywords := a.keywords, entities := a.entities,
    topic := a.topic }

/-- The spread of an analysis result over a document, as in the
persisted and selected-document updates of regenerateAnalysis: the four
analysis fields are replaced, every other field, the tag list included,
is kept. -/
def applyAnalysis (d : Document) (a : AnalysisResult) : Document :=
  { d with summary := a.summary, keywords := a.keywords,
           entities := a.entities, topic := a.topic }

/-- The in-memory document update of regenerateAnalysis: the analysis
spread together with the tag list rebuilt as the new topic followed by
the previous tags with their first element removed. -/
def regenUpdate (d : Document) (a : AnalysisResult) : Document :=
  { applyAnalysis d a with tags := a.topic :: d.tags.drop 1 }

/-- Embedding of regenerateAnalysis given the analysis result of the
call: the document list maps matching ids through regenUpdate, the store
receives the analysis spread of the argument document under its doc key,
and a matching selected document is replaced by the analysis spread. -/
def regenerateAnalysis (s : RepoState) (doc : Document) (a : AnalysisResult) :
    RepoState :=
  { s with
    documents := s.documents.map fun d => if d.id = doc.id then regenUpdate d a else d,
    selectedDoc :=
      match s.selectedDoc with
      | some sd => if sd.id = doc.id then some (applyAnalysis doc a) else some sd
      | none => none,
    store := fun k =>
      if k = "doc:" ++ doc.id then some (.docV (applyAnalysis doc a)) else s.store k }

/-- Embedding of addNote given the Date.now() reading and its ISO
rendering: the new note is appended to the notes of the document and the
appended list is persisted under the notes key. -/
def addNote (s : RepoState) (docId noteText : String) (now : Nat) (iso : String) :
    RepoState :=
  { s with
    notes := fun k =>
      if k = docId then s.notes docId ++ [⟨now, noteText, iso⟩] else s.notes k,
    store := fun k =>
      if k = "notes:" ++ docId
      then some (.notesV (s.notes docId ++ [⟨now, noteText, iso⟩]))
      else s.store k }

/-- A sequence of addNote calls against one document, each call carrying
its text, its Date.now() reading, and its timestamp rendering. -/
def addNotes (s : RepoState) (docId : String)
    (calls : List (String × Nat × String)) : RepoState :=
  calls.foldl (fun st c => addNote st docId c.1 c.2.1 c.2.2) s

/-- Embedding of linkDocuments, returning the new state together with
the list of store writes issued: when the target is already present the
state is returned untouched and no write is issued; otherwise the target
is appended and the appended list is persisted under the links key. -/
def linkDocuments (s : RepoState) (docId linkedDocId : String) :
    RepoState × List (String × StoreVal) :=
  if linkedDocId ∈ s.links docId then (s, [])
  else
    ({ s with
       links := fun k =>
         if k = docId then s.links docId ++ [linkedDocId] else s.links k,
       store := fun k =>
         if k = "links:" ++ docId
         then some (.linksV (s.links docId ++ [linkedDocId]))
         else s.store k },
     [("links:" ++ docId, .linksV (s.links docId ++ [linkedDocId]))])

/-- The document-list transformation of addTag: the tag is appended to
the document with the given id when not already present, every other
document is kept. -/
def addTagDocs (documents : List Document) (docId tag : String) : List Document :=
  documents.map fun d =>
    if d.id = docId ∧ tag ∉ d.tags then { d with tags := d.tags ++ [tag] } else d

/-- Embedding of addTag: the transformed list replaces the document
list, and the store receives the serialization of the found document
under its doc key; when the find fails the source stringifies the
undefined value, modelled by the undef store value. -/
def addTag (s : RepoState) (docId tag : String) : RepoState :=
  { s with
    documents := addTagDocs s.documents docId tag,
    store := fun k =>
      if k = "doc:" ++ docId
      then some
        (match (addTagDocs s.documents docId tag).find? (fun d => d.id == docId) with
         | some doc => .docV doc
         | none => .undef)
      else s.store k }

/-- Sample document used by concrete instances. -/
def docA : Document :=
  { id := "1", title := "Quantum Computing", content := "qubits and gates",
    uploadDate := "2026-01-01", fileType := "text/plain",
    tags := ["Physics", "Mine"], summary := "about qubits",
    keywords := ["qubit"], entities := ["Alice"], topic := "Physics" }

/-- Sample analysis result used by concrete instances. -/
def anaA : AnalysisResult :=
  { summary := "new summary", keywords := ["graph"], entities := ["Bob"],
    topic := "Chemistry" }

/-- Sample state holding the sample document consistently with its
persisted record. -/
def stateA : RepoState :=
  { documents := [docA], selectedDoc := none, notes := fun _ => [],
    links := fun _ => [],
    store := fun k => if k = "doc:1" then some (.docV docA) else none }

/-- Sample state in which document 1 already links to document 2. -/
def stateLinked : RepoState :=
  { emptyState with links := fun k => if k = "1" then ["2"] else [] }

/-- Sample upload file used by concrete instances. -/
def fileW : UploadFile :=
  { name := "notes.txt", type := "text/plain",
    content := "Alice met Bob to discuss graph theory." }

/-- Sample document getter: the first key is corrupt, the second valid. -/
def dgetW : String → GetOutcome Document := fun k =>
  if k = "doc:1" then .badParse
  else if k = "doc:2" then .parsed docA
  else .throwsErr

/-- Sample notes getter: the first key carries no value, the second is
valid. -/
def ngetW : String → GetOutcome (List Note) := fun k =>
  if k = "notes:1" then .noValue else .parsed [⟨7, "a note", "t"⟩]

/-- Sample links getter: the first key is corrupt, the second valid. -/
def lgetW : String → GetOutcome (List String) := fun k =>
  if k = "links:1" then .badParse else .parsed ["2"]

/-- The prefix test is equivalent to the list prefix relation. -/
theorem startsWithList_iff : ∀ (l p : List Char), startsWithList l p = true ↔ p <+: l
  | l, [] => by simp [startsWithList]
  | [], c :: cs => by simp [startsWithList]
  | a :: as, c :: cs => by
    have ih := startsWithList_iff as cs
    simp only [startsWithList, Bool.and_eq_true, beq_iff_eq, ih, List.cons_prefix_cons]
    constructor
    · rintro ⟨h1, h2⟩; exact ⟨h1.symm, h2⟩
    · rintro ⟨h1, h2⟩; exact ⟨h1.symm, h2⟩

/-- The occurrence test is equivalent to the contiguous-sublist
relation, the formal reading of substring containment. -/
theorem containsList_iff : ∀ (l p : List Char), containsList l p = true ↔ p <:+: l
  | [], p => by
    rw [containsList, startsWithList_iff]
    constructor
    · rintro ⟨t, ht⟩
      exact ⟨[], t, by simpa using ht⟩
    · rintro ⟨s, t, hst⟩
      rcases List.append_eq_nil.mp hst with ⟨hsp, ht⟩
      rcases List.append_eq_nil.mp hsp with ⟨hs, hp⟩
      subst hp
      exact List.nil_prefix
  | a :: as, p => by
    rw [containsList]
    simp only [Bool.or_eq_true, startsWithList_iff, containsList_iff as p]
    constructor
    · rintro (h | h)
      · obtain ⟨t, ht⟩ := h
        exact ⟨[], t, by simpa using ht⟩
      · obtain ⟨s, t, hst⟩ := h
        exact ⟨a :: s, t, by simp [hst]⟩
    · rintro ⟨s, t, hst⟩
      cases s with
      | nil => exact Or.inl ⟨t, by simpa using hst⟩
      | cons b bs =>
        injection hst with h1 h2
        exact Or.inr ⟨bs, t, h2⟩

/-- Claim C6: the derived filtered list contains exactly the documents
for which the search term is a case-insensitive substring of the title,
of the summary, or of some keyword, and the tag filter is empty or its
value occurs in the tag list. -/
theorem mem_filteredDocs (documents : List Document) (searchTerm filterTag : String)
    (d : Document) :
    d ∈ filteredDocs documents searchTerm filterTag ↔
      d ∈ documents ∧
      ((jsToLower searchTerm).data <:+: (jsToLower d.title).data ∨
       (jsToLower searchTerm).data <:+: (jsToLower d.summary).data ∨
       ∃ k ∈ d.keywords, (jsToLower searchTerm).data <:+: (jsToLower k).data) ∧
      (filterTag = "" ∨ filterTag ∈ d.tags) := by
  rw [filteredDocs, List.mem_filter]
  simp only [Bool.and_eq_true, Bool.or_eq_true, matchesSearch, matchesTag,
    jsIncludes, containsList_iff, List.any_eq_true, beq_iff_eq,
    List.contains, List.elem_iff]
  tauto

/-- Claim C3: whenever the analysis call fails at any modelled point of
the try block, that is the fetch throws, the body fails to parse as
JSON, the parsed body carries no content array, or the joined text is
not valid JSON once fences are stripped and ends trimmed, the function
returns exactly the fixed fallback record, and being total it never
propagates the error. -/
theorem analyze_fail_fallback (fr : FetchResult)
    (parseJson : String → Option AnalysisResult)
    (h : fr = .transportError ∨ fr = .jsonError ∨
         (∃ data, fr = .ok data ∧ data.content = none) ∨
         (∃ data items, fr = .ok data ∧ data.content = some items ∧
            parseJson (jsTrim (stripFences (extractTextContent items))) = none)) :
    analyzeDocument fr parseJson =
      { summary := "Analysis unavailable", keywords := [], entities := [],
        topic := "General" } := by
  rcases h with h | h | ⟨data, h, hc⟩ | ⟨data, items, h, hc, hp⟩ <;> subst h
  · rfl
  · rfl
  · simp [analyzeDocument, hc, fallbackResult]
  · simp [analyzeDocument, hc, hp, fallbackResult]

/-- Concrete instance of the fallback theorem at a failing fetch. -/
theorem analyze_fail_fallback_wit :
    analyzeDocument .transportError (fun _ => none) =
      { summary := "Analysis unavailable", keywords := [], entities := [],
        topic := "General" } :=
  analyze_fail_fallback .transportError (fun _ => none) (Or.inl rfl)

/-- Keys none of which strips to the given id leave the accumulator
unchanged at that id. -/
theorem loadEntryMap_unmentioned {α : Type} (pfx : String)
    (get : String → GetOutcome α) :
    ∀ (keys : List String) (m : String → Option α) (x : String),
      (∀ k ∈ keys, removeFirst k pfx ≠ x) →
      loadEntryMap pfx get keys m x = m x
  | [], m, x, _ => rfl
  | k :: ks, m, x, h => by
    have hk : removeFirst k pfx ≠ x := h k (by simp)
    have hrest : ∀ k' ∈ ks, removeFirst k' pfx ≠ x :=
      fun k' hk' => h k' (by simp [hk'])
    cases hg : get k with
    | parsed v =>
      simp only [loadEntryMap, hg]
      rw [loadEntryMap_unmentioned pfx get ks _ x hrest]
      simp [Ne.symm hk]
    | throwsErr =>
      simp only [loadEntryMap, hg]
      exact loadEntryMap_unmentioned pfx get ks m x hrest
    | noValue =>
      simp only [loadEntryMap, hg]
      exact loadEntryMap_unmentioned pfx get ks m x hrest
    | badParse =>
      simp only [loadEntryMap, hg]
      exact loadEntryMap_unmentioned pfx get ks m x hrest

/-- A key whose value parses, and which is the only key of the listing
stripping to its id, ends up mapped to its parsed value, whatever the
other keys do. -/
theorem loadEntryMap_found {α : Type} (pfx : String)
    (get : String → GetOutcome α) :
    ∀ (keys : List String) (m : String → Option α) (k : String) (v : α),
      k ∈ keys → get k = .parsed v →
      (∀ k' ∈ keys, removeFirst k' pfx = removeFirst k pfx → k' = k) →
      loadEntryMap pfx get keys m (removeFirst k pfx) = some v
  | [], _, k, v, hmem, _, _ => absurd hmem (by simp)
  | k0 :: ks, m, k, v, hmem, hget, huniq => by
    by_cases hks : k ∈ ks
    · have huniq' : ∀ k' ∈ ks, removeFirst k' pfx = removeFirst k pfx → k' = k :=
        fun k' hk' => huniq k' (by simp [hk'])
      cases hg : get k0 with
      | parsed v0 =>
        simp only [loadEntryMap, hg]
        exact loadEntryMap_found pfx get ks _ k v hks hget huniq'
      | throwsErr =>
        simp only [loadEntryMap, hg]
        exact loadEntryMap_found pfx get ks m k v hks hget huniq'
      | noValue =>
        simp only [loadEntryMap, hg]
        exact loadEntryMap_found pfx get ks m k v hks hget huniq'
      | badParse =>
        simp only [loadEntryMap, hg]
        exact loadEntryMap_found pfx get ks m k v hks hget huniq'
    · have hk0 : k0 = k := by
        rcases List.mem_cons.mp hmem with h | h
        · exact h.symm
        · exact absurd h hks
      subst hk0
      simp only [loadEntryMap, hget]
      have hrest : ∀ k' ∈ ks, removeFirst k' pfx ≠ removeFirst k0 pfx := by
        intro k' hk' heq
        exact hks (huniq k' (by simp [hk']) heq ▸ hk')
      rw [loadEntryMap_unmentioned pfx get ks _ _ hrest]
      simp

/-- Claim C4: in each of the three namespaces, a key whose value is
present and parses is reconstructed by load, whatever the other keys of
that namespace hold: documents are collected into the loaded list, and
notes and links are assigned at their stripped key, the only-key
hypothesis ruling out a second listing entry for the same record.
Corrupted or missing values are skipped without blocking the rest. -/
theorem load_skips_corrupt
    (dkeys : List String) (dget : String → GetOutcome Document)
    (kd : String) (d : Document)
    (hd1 : kd ∈ dkeys) (hd2 : dget kd = .parsed d)
    (nkeys : List String) (nget : String → GetOutcome (List Note))
    (kn : String) (ns : List Note)
    (hn1 : kn ∈ nkeys) (hn2 : nget kn = .parsed ns)
    (hn3 : ∀ k ∈ nkeys, removeFirst k "notes:" = removeFirst kn "notes:" → k = kn)
    (lkeys : List String) (lget : String → GetOutcome (List String))
    (kl : String) (ls : List String)
    (hl1 : kl ∈ lkeys) (hl2 : lget kl = .parsed ls)
    (hl3 : ∀ k ∈ lkeys, removeFirst k "links:" = removeFirst kl "links:" → k = kl) :
    d ∈ loadDocs dkeys dget ∧
    loadNotes nkeys nget (removeFirst kn "notes:") = some ns ∧
    loadLinks lkeys lget (removeFirst kl "links:") = some ls := by
  refine ⟨?_, ?_, ?_⟩
  · rw [loadDocs]
    exact List.mem_filterMap.mpr ⟨kd, hd1, by rw [hd2]⟩
  · exact loadEntryMap_found "notes:" nget nkeys _ kn ns hn1 hn2 hn3
  · exact loadEntryMap_found "links:" lget lkeys _ kl ls hl1 hl2 hl3

/-- Concrete instance of the load robustness theorem: one corrupted key
per namespace next to one valid key. -/
theorem load_skips_corrupt_wit :
    docA ∈ loadDocs ["doc:1", "doc:2"] dgetW ∧
    loadNotes ["notes:1", "notes:2"] ngetW (removeFirst "notes:2" "notes:") =
      some [⟨7, "a note", "t"⟩] ∧
    loadLinks ["links:1", "links:2"] lgetW (removeFirst "links:2" "links:") =
      some ["2"] :=
  load_skips_corrupt ["doc:1", "doc:2"] dgetW "doc:2" docA (by decide) (by decide)
    ["notes:1", "notes:2"] ngetW "notes:2" [⟨7, "a note", "t"⟩] (by decide) (by decide)
    (by decide)
    ["links:1", "links:2"] lgetW "links:2" ["2"] (by decide) (by decide) (by decide)

/-- Packing the character data of a string gives the string back. -/
theorem mk_data : ∀ s : String, String.mk s.data = s
  | ⟨_⟩ => rfl

/-- takeWhile over an append stops exactly at the first failing
character. -/
theorem takeWhile_middle (p : Char → Bool) :
    ∀ (l1 : List Char) (c : Char) (l2 : List Char),
      (∀ x ∈ l1, p x = true) → p c = false →
      (l1 ++ c :: l2).takeWhile p = l1
  | [], c, l2, _, hc => by simp [List.takeWhile_cons, hc]
  | a :: t, c, l2, h, hc => by
    have ha : p a = true := h a (by simp)
    simp [List.takeWhile_cons, ha,
      takeWhile_middle p t c l2 (fun x hx => h x (by simp [hx])) hc]

/-- The title derivation removes exactly the final extension: for a name
of the form base, dot, extension, with a non-empty extension free of
dots and slashes, the result is the base. -/
theorem stripExt_append (base ext : String) (h2 : ext.data ≠ [])
    (h3 : ∀ c ∈ ext.data, ¬(c = '.') ∧ ¬(c = '/')) :
    stripExt (base ++ "." ++ ext) = base := by
  obtain ⟨c0, cs, hcs⟩ : ∃ c0 cs, ext.data = c0 :: cs := by
    cases hx : ext.data with
    | nil => exact absurd hx h2
    | cons c0 cs => exact ⟨c0, cs, rfl⟩
  have hdot : (".".data : List Char) = ['.'] := rfl
  have hrev : (base ++ "." ++ ext).data.reverse =
      ext.data.reverse ++ '.' :: base.data.reverse := by
    simp [String.data_append, hdot, List.reverse_append]
  have hall : ∀ x ∈ ext.data.reverse, (!(x == '.') && !(x == '/')) = true := by
    intro x hx
    rcases h3 x (List.mem_reverse.mp hx) with ⟨hd, hs⟩
    simp [hd, hs]
  have htw : List.takeWhile (fun c => !(c == '.') && !(c == '/'))
      (ext.data.reverse ++ '.' :: base.data.reverse) = ext.data.reverse :=
    takeWhile_middle _ _ _ _ hall (by simp)
  have hie : (ext.data.reverse).isEmpty = false := by
    rw [hcs]
    simp
  rw [stripExt]
  simp only [hrev, htw, List.drop_left]
  simp [hie, List.reverse_reverse, mk_data base]

/-- Claim C7: the document constructed for an uploaded file carries as
title the filename with its final extension stripped, and its initial
tag list is exactly the one-element list holding the analysis topic, so
the first tag is the topic and the list is non-empty. -/
theorem ingest_title_tags (f : UploadFile) (newId now : String)
    (a : AnalysisResult) (base ext : String)
    (h1 : f.name = base ++ "." ++ ext) (h2 : ext.data ≠ [])
    (h3 : ∀ c ∈ ext.data, ¬(c = '.') ∧ ¬(c = '/')) :
    (ingestDoc f newId now a).title = base ∧
    (ingestDoc f newId now a).tags = [a.topic] ∧
    (ingestDoc f newId now a).tags.head? = some a.topic ∧
    (ingestDoc f newId now a).tags ≠ [] := by
  refine ⟨?_, rfl, rfl, by simp [ingestDoc]⟩
  show stripExt f.name = base
  rw [h1]
  exact stripExt_append base ext h2 h3

/-- Concrete instance of the ingest theorem at the end-to-end example
file name. -/
theorem ingest_title_tags_wit :
    (ingestDoc fileW "id1" "2026-01-01" anaA).title = "notes" ∧
    (ingestDoc fileW "id1" "2026-01-01" anaA).tags = [anaA.topic] ∧
    (ingestDoc fileW "id1" "2026-01-01" anaA).tags.head? = some anaA.topic ∧
    (ingestDoc fileW "id1" "2026-01-01" anaA).tags ≠ [] :=
  ingest_title_tags fileW "id1" "2026-01-01" anaA "notes" "txt" (by decide)
    (by decide) (by decide)

/-- Claim C2: for a stored document matching the regenerated id, the
in-memory update places the new analysis topic first and keeps the
previous tag list minus its first element verbatim after it. -/
theorem regen_tags_update (s : RepoState) (doc : Document) (a : AnalysisResult)
    (d : Document) (h1 : d ∈ s.documents) (h2 : d.id = doc.id)
    (h3 : d.tags ≠ []) :
    regenUpdate d a ∈ (regenerateAnalysis s doc a).documents ∧
    (regenUpdate d a).id = d.id ∧
    (regenUpdate d a).tags.head? = some a.topic ∧
    (regenUpdate d a).tags.drop 1 = d.tags.drop 1 ∧
    (regenUpdate d a).tags = a.topic :: d.tags.drop 1 := by
  refine ⟨?_, rfl, rfl, rfl, rfl⟩
  have hmem := List.mem_map_of_mem
    (fun d' => if d'.id = doc.id then regenUpdate d' a else d') h1
  simpa [regenerateAnalysis, h2] using hmem

/-- Concrete instance of the regenerate tag theorem. -/
theorem regen_tags_update_wit :
    regenUpdate docA anaA ∈ (regenerateAnalysis stateA docA anaA).documents ∧
    (regenUpdate docA anaA).id = docA.id ∧
    (regenUpdate docA anaA).tags.head? = some anaA.topic ∧
    (regenUpdate docA anaA).tags.drop 1 = docA.tags.drop 1 ∧
    (regenUpdate docA anaA).tags = anaA.topic :: docA.tags.drop 1 :=
  regen_tags_update stateA docA anaA docA (by decide) rfl (by decide)

/-- Claim C1 evidence: regenerateAnalysis persists the analysis spread
of the old document, whose tag list is the pre-call one, while the
in-memory list receives the rebuilt tag list with the new topic first;
at a document whose first tag differs from the new topic the persisted
record therefore differs from the updated in-memory document. -/
theorem regen_persist_stale_tags :
    (regenerateAnalysis stateA docA anaA).documents = [regenUpdate docA anaA] ∧
    (regenUpdate docA anaA).tags = ["Chemistry", "Mine"] ∧
    (regenerateAnalysis stateA docA anaA).store "doc:1" =
      some (.docV (applyAnalysis docA anaA)) ∧
    (applyAnalysis docA anaA).tags = ["Physics", "Mine"] ∧
    (regenerateAnalysis stateA docA anaA).store "doc:1" ≠
      some (.docV (regenUpdate docA anaA)) := by
  refine ⟨?_, ?_, ?_, ?_, ?_⟩ <;> decide

/-- Claim C5: from a state respecting the set-like link invariant (the
target occurs at most once, and an already-linked target is reflected by
the persisted record), two sequential linkDocuments calls leave the
target appearing exactly once in the link list, the persisted value
under the links key equals that list, and the second call returns the
state of the first unchanged. -/
theorem link_twice_once (s : RepoState) (A B : String)
    (hc : (s.links A).count B ≤ 1)
    (hs : B ∈ s.links A → s.store ("links:" ++ A) = some (.linksV (s.links A))) :
    ((linkDocuments (linkDocuments s A B).1 A B).1.links A).count B = 1 ∧
    (linkDocuments (linkDocuments s A B).1 A B).1.store ("links:" ++ A) =
      some (.linksV ((linkDocuments (linkDocuments s A B).1 A B).1.links A)) ∧
    (linkDocuments (linkDocuments s A B).1 A B).1 = (linkDocuments s A B).1 := by
  by_cases hB : B ∈ s.links A
  · have h1 : linkDocuments s A B = (s, []) := by simp [linkDocuments, hB]
    have h0 : (s.links A).count B ≠ 0 := by
      intro h
      exact (List.count_eq_zero.mp h) hB
    refine ⟨?_, ?_, ?_⟩
    · simp [h1]
      omega
    · simp [h1]
      exact hs hB
    · simp [h1]
  · have h0 : (s.links A).count B = 0 := List.count_eq_zero.mpr hB
    simp [linkDocuments, hB, h0]

/-- Concrete instance of the link dedup theorem from a state with no
links. -/
theorem link_twice_once_wit :
    ((linkDocuments (linkDocuments stateA "1" "2").1 "1" "2").1.links "1").count "2" = 1 ∧
    (linkDocuments (linkDocuments stateA "1" "2").1 "1" "2").1.store ("links:" ++ "1") =
      some (.linksV ((linkDocuments (linkDocuments stateA "1" "2").1 "1" "2").1.links "1")) ∧
    (linkDocuments (linkDocuments stateA "1" "2").1 "1" "2").1 =
      (linkDocuments stateA "1" "2").1 :=
  link_twice_once stateA "1" "2" (by decide) (fun h => absurd h (by decide))

/-- Claim C10: when the target is already present in the link list of
the source document, linkDocuments returns the state untouched and
issues no store write at all: the write trace is empty. -/
theorem link_dup_no_write (s : RepoState) (A B : String)
    (h : B ∈ s.links A) :
    linkDocuments s A B = (s, []) := by
  simp [linkDocuments, h]

/-- Concrete instance of the duplicate-link frame theorem. -/
theorem link_dup_no_write_wit :
    linkDocuments stateLinked "1" "2" = (stateLinked, []) :=
  link_dup_no_write stateLinked "1" "2" (by decide)

/-- Mapping a function that fixes every element of a list is the
identity. -/
theorem map_id_of_eq {α : Type} : ∀ (l : List α) (f : α → α),
    (∀ a ∈ l, f a = a) → l.map f = l
  | [], _, _ => rfl
  | a :: t, f, h => by
    simp only [List.map_cons]
    rw [h a (by simp), map_id_of_eq t f (fun x hx => h x (by simp [hx]))]

/-- In a list whose key projection is duplicate-free, two members with
the same key are equal. -/
theorem eq_of_nodup_key {α β : Type} (key : α → β) :
    ∀ (l : List α), (l.map key).Nodup →
      ∀ a ∈ l, ∀ b ∈ l, key a = key b → a = b
  | [], _, a, ha, _, _, _ => absurd ha (by simp)
  | c :: t, hnd, a, ha, b, hb, hab => by
    rw [List.map_cons, List.nodup_cons] at hnd
    rcases List.mem_cons.mp ha with h1 | h1 <;> rcases List.mem_cons.mp hb with h2 | h2
    · rw [h1, h2]
    · subst h1
      have hx := List.mem_map_of_mem key h2
      rw [← hab] at hx
      exact absurd hx hnd.1
    · subst h2
      have hx := List.mem_map_of_mem key h1
      rw [hab] at hx
      exact absurd hx hnd.1
    · exact eq_of_nodup_key key t hnd.2 a h1 b h2 hab

/-- Claim C8: when the tag is already on the document found at the
given id, and the persisted record agrees with that document, addTag
leaves the whole state unchanged, in memory and in the store, and a
second identical call is equivalent to the first. -/
theorem addTag_noop (s : RepoState) (docId tag : String) (d : Document)
    (hN : (s.documents.map (fun d' => d'.id)).Nodup)
    (hf : s.documents.find? (fun d' => d'.id == docId) = some d)
    (ht : tag ∈ d.tags)
    (hsd : s.store ("doc:" ++ docId) = some (.docV d)) :
    addTag s docId tag = s ∧
    addTag (addTag s docId tag) docId tag = addTag s docId tag := by
  have hdmem : d ∈ s.documents := List.mem_of_find?_eq_some hf
  have hdid : d.id = docId := by
    have := List.find?_some hf
    simpa using this
  have hmap : addTagDocs s.documents docId tag = s.documents := by
    apply map_id_of_eq
    intro d' hd'
    by_cases hid : d'.id = docId
    · have hde : d' = d :=
        eq_of_nodup_key (fun x => x.id) s.documents hN d' hd' d hdmem
          (by show d'.id = d.id; rw [hid, hdid])
      subst hde
      simp [ht]
    · simp [hid]
  have hmain : addTag s docId tag = s := by
    simp only [addTag, hmap, hf]
    have hst : (fun k => if k = "doc:" ++ docId
        then some (StoreVal.docV d) else s.store k) = s.store := by
      funext k
      by_cases hk : k = "doc:" ++ docId
      · rw [hk, if_pos rfl, hsd]
      · rw [if_neg hk]
    rw [hst]
  exact ⟨hmain, by rw [hmain]; exact hmain⟩

/-- Concrete instance of the addTag no-op theorem: the sample document
already carries the tag. -/
theorem addTag_noop_wit :
    addTag stateA "1" "Mine" = stateA ∧
    addTag (addTag stateA "1" "Mine") "1" "Mine" = addTag stateA "1" "Mine" :=
  addTag_noop stateA "1" "Mine" docA (by decide) (by decide) (by decide) (by decide)

/-- The notes of a document after a sequence of addNote calls are the
initial notes followed by one note per call, each carrying the clock
reading of its call as id. -/
theorem addNotes_notes :
    ∀ (calls : List (String × Nat × String)) (s : RepoState) (docId : String),
      (addNotes s docId calls).notes docId =
        s.notes docId ++ calls.map (fun c => Note.mk c.2.1 c.1 c.2.2)
  | [], s, docId => by simp [addNotes]
  | c :: cs, s, docId => by
    have ih := addNotes_notes cs (addNote s docId c.1 c.2.1 c.2.2) docId
    simp only [addNotes, List.foldl_cons] at ih ⊢
    rw [ih]
    simp [addNote]

/-- Claim C9 (amended): the note ids of a document are exactly the
Date.now readings of the addNote calls that built it, so they are
pairwise distinct provided those clock readings are pairwise distinct;
two calls sharing a reading violate uniqueness. -/
theorem note_ids_unique (s : RepoState) (docId : String)
    (calls : List (String × Nat × String))
    (h0 : s.notes docId = [])
    (hnd : (calls.map (fun c => c.2.1)).Nodup) :
    ((addNotes s docId calls).notes docId).map (fun n => n.id) =
      calls.map (fun c => c.2.1) ∧
    (((addNotes s docId calls).notes docId).map (fun n => n.id)).Nodup := by
  rw [addNotes_notes, h0]
  constructor
  · simp [List.map_map, Function.comp]
  · simp only [List.nil_append, List.map_map]
    simpa [Function.comp] using hnd

/-- Concrete instance of the amended note-id theorem at two calls with
distinct readings. -/
theorem note_ids_unique_wit :
    ((addNotes emptyState "d" [("first", 5, "t1"), ("second", 6, "t2")]).notes
        "d").map (fun n => n.id) =
      [("first", 5, "t1"), ("second", 6, "t2")].map
        (fun c : String × Nat × String => c.2.1) ∧
    (((addNotes emptyState "d" [("first", 5, "t1"), ("second", 6, "t2")]).notes
        "d").map (fun n => n.id)).Nodup :=
  note_ids_unique emptyState "d" [("first", 5, "t1"), ("second", 6, "t2")]
    rfl (by decide)

/-- Claim C9 counterexample: two addNote calls within one millisecond
share the Date.now reading, so both notes of the document receive the
same id and the id list of the document is not duplicate-free. -/
theorem addNote_same_time_dup :
    (((addNote (addNote emptyState "d" "first" 5 "t1") "d" "second" 5 "t2").notes
        "d").map (fun n => n.id) = [5, 5]) ∧
    ¬ ((((addNote (addNote emptyState "d" "first" 5 "t1") "d" "second" 5 "t2").notes
        "d").map (fun n => n.id)).Nodup) := by
  decide
